import Mathlib

/-!
# Verification of the `ocr-adda` OCR benchmark core

Shallow embedding of the repository's metrics engine (`utils.py`), benchmark
orchestrator (`main.py::process`) and ground-truth directory reader
(`utils.py::read_gemini_ground_truth`), together with theorems settling the
specification claims.

Strings are embedded as `List Char` (Python `str`), rationals `ℚ` stand for
Python floats (all arithmetic involved is exact: integer divisions of
integers), `Option` models Python `None` sentinels, and `Except` models
exceptions thrown across the `recognize` boundary.
-/

namespace OcrAdda

/-- Python strings, embedded as lists of code points. -/
abbrev Str := List Char

/-- The ASCII whitespace characters recognized by Python's `str.strip()` and
`str.split()` (the Unicode-only whitespace code points are not modelled). -/
def isPyWS (c : Char) : Bool :=
  c = ' ' || c = '\t' || c = '\n' || c = '\r' || c = '\x0b' || c = '\x0c'

/-- Python `s.strip()`: remove leading and trailing whitespace. -/
def pyStrip (s : Str) : Str :=
  ((s.dropWhile isPyWS).reverse.dropWhile isPyWS).reverse

/-- Python `s.split()` (no separator argument): split on runs of whitespace,
discarding empty tokens. -/
def pySplit (s : Str) : List Str :=
  match s with
  | [] => []
  | c :: cs =>
    if isPyWS c then pySplit cs
    else (c :: cs.takeWhile (fun d => !isPyWS d)) :: pySplit (cs.dropWhile (fun d => !isPyWS d))
termination_by s.length
decreasing_by
  · simp
  · have h := (List.dropWhile_sublist (l := cs) (fun d => !isPyWS d)).length_le
    simp only [List.length_cons]
    omega

/-- Classic character-level Levenshtein distance (unit costs), the function
computed by the external `Levenshtein.distance` library call in
`utils.py::compute_all_metrics`. -/
def lev : Str → Str → Nat
  | [], t => t.length
  | s, [] => s.length
  | a :: s, b :: t =>
    if a = b then lev s t
    else 1 + min (lev s t) (min (lev (a :: s) t) (lev s (b :: t)))
termination_by s t => s.length + t.length

/-- Word-level alignment operation counts: `hits` (tokens aligned identically),
substitutions, deletions (reference tokens with no aligned hypothesis token)
and insertions (extra hypothesis tokens). -/
structure WordCounts where
  hits : Nat
  subs : Nat
  dels : Nat
  ins : Nat
deriving DecidableEq, Repr

/-- Total number of edit operations (the word-level edit cost). -/
def WordCounts.cost (c : WordCounts) : Nat := c.subs + c.dels + c.ins

/-- Minimum-cost word-level edit alignment counts between a reference token
sequence and a hypothesis token sequence (the alignment underlying
`jiwer.compute_measures`). When heads agree the match is taken; otherwise the
cheapest of substitution / deletion / insertion is taken. -/
def alignCounts : List Str → List Str → WordCounts
  | [], hs => ⟨0, 0, 0, hs.length⟩
  | rs, [] => ⟨0, 0, rs.length, 0⟩
  | r :: rs, h :: hs =>
    if r = h then
      let c := alignCounts rs hs
      ⟨c.hits + 1, c.subs, c.dels, c.ins⟩
    else
      let csub := alignCounts rs hs
      let cdel := alignCounts rs (h :: hs)
      let cins := alignCounts (r :: rs) hs
      let s : WordCounts := ⟨csub.hits, csub.subs + 1, csub.dels, csub.ins⟩
      let d : WordCounts := ⟨cdel.hits, cdel.subs, cdel.dels + 1, cdel.ins⟩
      let i : WordCounts := ⟨cins.hits, cins.subs, cins.dels, cins.ins + 1⟩
      if s.cost ≤ d.cost then (if s.cost ≤ i.cost then s else i)
      else (if d.cost ≤ i.cost then d else i)
termination_by rs hs => rs.length + hs.length

/-- The word-level measures returned by the external `jiwer.compute_measures`
call: the word error rate `(S + D + I) / (H + S + D)` together with the raw
alignment counts, both computed over whitespace-tokenized inputs. -/
structure Measures where
  wer : ℚ
  hits : Nat
  substitutions : Nat
  deletions : Nat
  insertions : Nat
deriving DecidableEq, Repr

/-- Models `jiwer.compute_measures(gt, hyp)` as called in
`utils.py::compute_all_metrics`: whitespace-tokenize both strings, compute the
minimum-edit word alignment, and derive the word error rate. -/
def compute_measures (gt hyp : Str) : Measures :=
  let r := pySplit gt
  let h := pySplit hyp
  let c := alignCounts r h
  { wer := ((c.subs + c.dels + c.ins : Nat) : ℚ) / ((c.hits + c.subs + c.dels : Nat) : ℚ)
    hits := c.hits
    substitutions := c.subs
    deletions := c.dels
    insertions := c.ins }

/-- The external similarity-scoring libraries called by
`utils.py::compute_all_metrics` (`rapidfuzz.fuzz.ratio`, scaled 0–100;
`nltk` smoothed `sentence_bleu`; `rouge_score` ROUGE-L F1). They are opaque
collaborators of the metrics engine, so the embedding is parametric in them. -/
structure ExtLibs where
  fuzz : Str → Str → ℚ
  bleu : List (List Str) → List Str → ℚ
  rougeL : Str → Str → ℚ

/-- The metrics dictionary returned by `utils.py::compute_all_metrics`;
`none` is the `None` sentinel of the degenerate-input branch. -/
structure Metrics where
  cer : Option ℚ
  wer : Option ℚ
  char_acc : Option ℚ
  word_acc : Option ℚ
  levenshtein_dist : Option Nat
  fuzz_ratio : Option ℚ
  bleu : Option ℚ
  rougeL_f1 : Option ℚ
  substitutions : Option Nat
  deletions : Option Nat
  insertions : Option Nat
deriving DecidableEq, Repr

/-- The all-`None` dictionary returned on the degenerate-input branch of
`compute_all_metrics`. -/
def Metrics.sentinel : Metrics :=
  ⟨none, none, none, none, none, none, none, none, none, none, none⟩

/-- Embedding of `utils.py::compute_all_metrics`. The guard transcribes
`if not gt or not gt.strip()`; the `cer` expression transcribes
`lev_dist / len(gt) if len(gt) > 0 else 1.0`, and the remaining fields follow
the source line by line (the three external similarity libraries are taken
from the `ext` parameter). -/
def compute_all_metrics (ext : ExtLibs) (gt hyp : Str) : Metrics :=
  if gt = [] ∨ pyStrip gt = [] then Metrics.sentinel
  else
    let lev_dist := lev gt hyp
    let cer : ℚ := if gt.length > 0 then (lev_dist : ℚ) / (gt.length : ℚ) else 1
    let word_measures := compute_measures gt hyp
    let wer_val := word_measures.wer
    let char_acc := 1 - cer
    let word_acc := 1 - wer_val
    let fuzz := ext.fuzz gt hyp / 100
    { cer := some cer
      wer := some wer_val
      char_acc := some char_acc
      word_acc := some word_acc
      levenshtein_dist := some lev_dist
      fuzz_ratio := some fuzz
      bleu := some (ext.bleu [pySplit gt] (pySplit hyp))
      rougeL_f1 := some (ext.rougeL gt hyp)
      substitutions := some word_measures.substitutions
      deletions := some word_measures.deletions
      insertions := some word_measures.insertions }

/-! ## Orchestrator (`main.py::process`)

`main.py` imports `compute_cer` and `compute_word_measures` from `utils`, but
the repository's `utils.py` does not define them; those two scoring helpers
are modelled from the spec below. Engines are embedded by their display name
together with their `run_image` operation; `Except` models a raised
exception. -/

/-- A successfully constructed recognition engine: its display name
(`runner.name`) and its `run_image(img_path)` operation, which either returns
hypothesis text or raises (`Except.error` carries the exception message). -/
structure Engine where
  name : Str
  run_image : Str → Except Str Str

/-- The failure-marker hypothesis recorded by `main.py::process` when
`runner.run_image` raises: `f"[OCR_ERROR: {e}]"`. -/
def markerText (e : Str) : Str :=
  "[OCR_ERROR: ".toList ++ e ++ "]".toList

/-- Modelled from the spec: `compute_cer` is imported by `main.py` from
`utils` but is absent from the repository sources. Per the spec,
`characterErrorRate = characterEditDistance(ref, hyp) / length(ref)`, with the
sentinel when the reference is empty or whitespace-only; the raw edit distance
is returned alongside (its slot is discarded by the caller: `cer, _ = ...`). -/
def compute_cer (gt hyp : Str) : Option ℚ × Nat :=
  if gt = [] ∨ pyStrip gt = [] then (none, lev gt hyp)
  else (some ((lev gt hyp : ℚ) / (gt.length : ℚ)), lev gt hyp)

/-- Modelled from the spec: `compute_word_measures` is imported by `main.py`
from `utils` but is absent from the repository sources. Per the spec,
`wordErrorRate = (substitutions + deletions + insertions) /
max(1, number_of_reference_tokens)`, with the sentinel (and an empty measures
dictionary, modelled `none`) when the reference is empty or whitespace-only. -/
def compute_word_measures (gt hyp : Str) : Option ℚ × Option Measures :=
  if gt = [] ∨ pyStrip gt = [] then (none, none)
  else (some (compute_measures gt hyp).wer, some (compute_measures gt hyp))

/-- One summary row of the benchmark report, with exactly the keys of the
dictionary literal built in `main.py::process`. -/
structure Row where
  model : Str
  page : Nat
  gt_len_chars : Nat
  hyp_len_chars : Nat
  cer : Option ℚ
  wer : Option ℚ
  char_acc : Option ℚ
  substitutions : Option Nat
  deletions : Option Nat
  insertions : Option Nat
deriving DecidableEq, Repr

/-- A value stored in a row cell (string, integer, optional float or optional
integer), used to expose the row as the keyed dictionary the source builds. -/
inductive Cell where
  | s : Str → Cell
  | n : Nat → Cell
  | q : Option ℚ → Cell
  | m : Option Nat → Cell
deriving DecidableEq

/-- The row as the key/value dictionary literally built at `main.py` line 136,
keys in insertion order. -/
def Row.toPairs (r : Row) : List (String × Cell) :=
  [("model", .s r.model), ("page", .n r.page), ("gt_len_chars", .n r.gt_len_chars),
   ("hyp_len_chars", .n r.hyp_len_chars), ("cer", .q r.cer), ("wer", .q r.wer),
   ("char_acc", .q r.char_acc), ("substitutions", .m r.substitutions),
   ("deletions", .m r.deletions), ("insertions", .m r.insertions)]

/-- The CSV header computed by `main.py::process`:
`fields = list(summary_rows[0].keys())`. -/
def summaryFields (rows : List Row) : List String :=
  match rows with
  | [] => []
  | r :: _ => r.toPairs.map Prod.fst

/-- The per-(engine, page) scoring step of `main.py::process`, applied to
whatever hypothesis text the recognition step produced (normal output or
failure marker): look up the reference (`gemini_gt.get(page_idx, '')` is the
`gtMap` argument with `''` default folded in), call `compute_cer`, call
`compute_word_measures` when the reference is non-empty, and assemble the
row dictionary. -/
def scoreRow (gtMap : Nat → Str) (model : Str) (page_idx : Nat) (page_text : Str) : Row :=
  let gt := gtMap page_idx
  let hyp := page_text
  let cer := (compute_cer gt hyp).1
  let wm := if gt ≠ [] then compute_word_measures gt hyp else (none, none)
  { model := model
    page := page_idx
    gt_len_chars := gt.length
    hyp_len_chars := hyp.length
    cer := cer
    wer := wm.1
    char_acc := cer.map (fun c => 1 - c)
    substitutions := (wm.2).map Measures.substitutions
    deletions := (wm.2).map Measures.deletions
    insertions := (wm.2).map Measures.insertions }

/-- The recognition step with its exception handler: `page_text =
runner.run_image(str(img_path))` wrapped in `try ... except`, which turns a
raised exception into the failure-marker text. -/
def runText (r : Engine) (img : Str) : Str :=
  match r.run_image img with
  | .ok t => t
  | .error e => markerText e

/-- The summary rows assembled by `main.py::process` over the successfully
constructed engines and the rasterized pages: the early return when no engine
initialized, then the nested loop `for runner in runners: for page_idx,
img_path in enumerate(page_images, start=1): ...` appending one row per
(engine, page) pair. -/
def processRows (gtMap : Nat → Str) (runners : List Engine) (pages : List Str) : List Row :=
  if runners.isEmpty then []
  else runners.flatMap fun r =>
    (pages.enum).map fun p => scoreRow gtMap r.name (p.1 + 1) (runText r p.2)

/-! ## Ground-truth directory reader (`utils.py::read_gemini_ground_truth`) -/

/-- The value of a non-empty all-decimal-digit string, `none` otherwise. -/
def digitsVal (ds : Str) : Option Nat :=
  if ds ≠ [] ∧ ds.all Char.isDigit then
    some (ds.foldl (fun n c => n * 10 + (c.toNat - 48)) 0)
  else none

/-- Models Python's `int` builtin applied to a string, as used in
`read_gemini_ground_truth`: surrounding whitespace is allowed, then an
optional sign followed by a non-empty run of decimal digits (digit-group
underscores and non-ASCII digits are not modelled). -/
def pyInt (s : Str) : Option Int :=
  match pyStrip s with
  | '+' :: ds => (digitsVal ds).map Int.ofNat
  | '-' :: ds => (digitsVal ds).map fun n => -(n : Int)
  | ds => (digitsVal ds).map Int.ofNat

/-- The page index extracted from a filename stem in the directory branch of
`read_gemini_ground_truth`: `int(name.split('_')[-1])`, falling back to
`int(name)`, `none` when both fail (the file is skipped). -/
def stemIdx (name : Str) : Option Int :=
  match pyInt ((List.splitOn '_' name).getLastD []) with
  | some i => some i
  | none => pyInt name

/-- Python dictionary assignment `out[idx] = v` on an association list:
replace the value if the key is present, append otherwise. -/
def updateAssoc (l : List (Int × Str)) (k : Int) (v : Str) : List (Int × Str) :=
  match l with
  | [] => [(k, v)]
  | (k', v') :: rest => if k' = k then (k, v) :: rest else (k', v') :: updateAssoc rest k v

/-- The body of the `for f in p.iterdir()` loop of `read_gemini_ground_truth`:
extract the index from the stem; on failure `continue` (skip the file),
otherwise `out[idx] = f.read_text().strip()`. -/
def gtStep (acc : List (Int × Str)) (f : Str × Str) : List (Int × Str) :=
  match stemIdx f.1 with
  | none => acc
  | some idx => updateAssoc acc idx (pyStrip f.2)

/-- The directory branch of `utils.py::read_gemini_ground_truth`, applied to
the directory listing given as (filename stem, file text) pairs: each file
whose stem yields an index contributes `out[idx] = text.strip()`, files
without a parseable index are skipped, and `dict(sorted(out.items()))` sorts
the result by key. -/
def read_gemini_ground_truth_dir (files : List (Str × Str)) : List (Int × Str) :=
  (files.foldl gtStep []).mergeSort fun a b => decide (a.1 ≤ b.1)

/-! ## Concrete instances used in the theorems below -/

/-- A trivial instantiation of the external similarity libraries, used to
evaluate the embedding at concrete inputs. -/
def extTriv : ExtLibs := ⟨fun _ _ => 0, fun _ _ => 0, fun _ _ => 0⟩

/-- The column set asserted by the spec for a report row — the full
MetricsVector field set plus the identifying columns — written from the
spec's words, to be compared with the columns the code actually emits. -/
def specClaimedColumns : List String :=
  ["model", "page", "gt_len_chars", "hyp_len_chars", "cer", "wer", "char_acc",
   "word_acc", "levenshtein_dist", "fuzz_ratio", "bleu", "rougeL_f1",
   "substitutions", "deletions", "insertions"]

/-- A first engine with display name `"x"`. -/
def dupEngineA : Engine := ⟨['x'], fun _ => Except.ok ['a']⟩

/-- A second, distinct engine with the same display name `"x"`. -/
def dupEngineB : Engine := ⟨['x'], fun _ => Except.ok ['b']⟩

/-! ## Helper lemmas -/

theorem pyStrip_eq_nil_of_all_ws (s : Str) (h : ∀ c ∈ s, isPyWS c = true) :
    pyStrip s = [] := by
  unfold pyStrip
  rw [show s.dropWhile isPyWS = [] from List.dropWhile_eq_nil_iff.mpr h]
  simp

theorem pySplit_eq_nil (s : Str) (h : pySplit s = []) : s.dropWhile isPyWS = [] := by
  induction s using pySplit.induct with
  | case1 => simp [List.dropWhile]
  | case2 c cs hws ih =>
    rw [pySplit, if_pos hws] at h
    simpa [List.dropWhile, hws] using ih h
  | case3 c cs hws =>
    rw [pySplit, if_neg hws] at h
    simp at h

theorem nondeg_dropWhile_ne_nil (s : Str) (h : ¬(s = [] ∨ pyStrip s = [])) :
    s.dropWhile isPyWS ≠ [] := by
  intro hd
  exact h (Or.inr (by unfold pyStrip; rw [hd]; simp))

theorem nondeg_pySplit_ne_nil (s : Str) (h : ¬(s = [] ∨ pyStrip s = [])) :
    pySplit s ≠ [] :=
  fun he => nondeg_dropWhile_ne_nil s h (pySplit_eq_nil s he)

theorem alignCounts_sum (rs hs : List Str) :
    (alignCounts rs hs).hits + (alignCounts rs hs).subs + (alignCounts rs hs).dels
      = rs.length := by
  suffices hgen : ∀ (n : Nat) (rs hs : List Str), rs.length + hs.length ≤ n →
      (alignCounts rs hs).hits + (alignCounts rs hs).subs + (alignCounts rs hs).dels
        = rs.length from hgen (rs.length + hs.length) rs hs le_rfl
  intro n
  induction n with
  | zero =>
    intro rs hs hle
    cases rs with
    | nil => simp [alignCounts]
    | cons r rs => simp at hle
  | succ n ih =>
    intro rs hs hle
    match rs, hs with
    | [], hs => simp [alignCounts]
    | r :: rs, [] => rw [alignCounts.eq_def]; simp
    | r :: rs, h :: hs =>
      rw [alignCounts.eq_def]
      by_cases hrh : r = h
      · have i0 := ih rs hs (by simp at hle ⊢; omega)
        simp only [if_pos hrh]
        simp
        omega
      · have i1 := ih rs hs (by simp at hle ⊢; omega)
        have i2 := ih rs (h :: hs) (by simp at hle ⊢; omega)
        have i3 := ih (r :: rs) hs (by simp at hle ⊢; omega)
        simp only [List.length_cons] at i1 i2 i3 ⊢
        simp only [if_neg hrh]
        split <;> [skip; skip] <;> split <;> simp <;> omega

/-! ## Claim C1 -/

/-- C1: for every reference that is empty or contains only whitespace
characters, and for every hypothesis, `compute_all_metrics` returns the `None`
sentinel for every metric field — the whole result is the sentinel record, so
no field carries a partially computed numeric value. -/
theorem compute_all_metrics_sentinel_on_degenerate (ext : ExtLibs) (gt hyp : Str)
    (h : ∀ c ∈ gt, isPyWS c = true) :
    compute_all_metrics ext gt hyp = Metrics.sentinel := by
  unfold compute_all_metrics
  rw [if_pos (Or.inr (pyStrip_eq_nil_of_all_ws gt h))]

/-- Witness for C1 at the whitespace-only reference `" \t"` and hypothesis
`"a"`. -/
theorem compute_all_metrics_sentinel_on_degenerate_witness :
    (∀ c ∈ ([' ', '\t'] : Str), isPyWS c = true) ∧
      compute_all_metrics extTriv [' ', '\t'] ['a'] = Metrics.sentinel :=
  ⟨by decide, compute_all_metrics_sentinel_on_degenerate extTriv [' ', '\t'] ['a'] (by decide)⟩

theorem compute_all_metrics_cer_eq (ext : ExtLibs) (gt hyp : Str)
    (h : ¬(gt = [] ∨ pyStrip gt = [])) :
    (compute_all_metrics ext gt hyp).cer
      = some ((lev gt hyp : ℚ) / (gt.length : ℚ)) := by
  have hlen : 0 < gt.length := List.length_pos.mpr fun he => h (Or.inl he)
  unfold compute_all_metrics
  rw [if_neg h]
  simp [hlen]

theorem compute_all_metrics_char_acc_eq (ext : ExtLibs) (gt hyp : Str)
    (h : ¬(gt = [] ∨ pyStrip gt = [])) :
    (compute_all_metrics ext gt hyp).char_acc
      = some (1 - (lev gt hyp : ℚ) / (gt.length : ℚ)) := by
  have hlen : 0 < gt.length := List.length_pos.mpr fun he => h (Or.inl he)
  unfold compute_all_metrics
  rw [if_neg h]
  simp [hlen]

/-! ## Claim C5 -/

/-- C5: for every non-degenerate reference and every hypothesis, the returned
`cer` equals the character Levenshtein distance divided by the reference
length and `char_acc` equals `1 - cer`; neither is clamped, witnessed by the
pair `("a", "bbb")` where `cer = 3 > 1` and `char_acc = -2 < 0`. -/
theorem compute_all_metrics_cer_char_acc (ext : ExtLibs) (gt hyp : Str)
    (h : ¬(gt = [] ∨ pyStrip gt = [])) :
    (compute_all_metrics ext gt hyp).cer
        = some ((lev gt hyp : ℚ) / (gt.length : ℚ)) ∧
    (compute_all_metrics ext gt hyp).char_acc
        = some (1 - (lev gt hyp : ℚ) / (gt.length : ℚ)) ∧
    (compute_all_metrics ext ['a'] ['b', 'b', 'b']).cer = some 3 ∧
    ((1 : ℚ) < 3) ∧
    (compute_all_metrics ext ['a'] ['b', 'b', 'b']).char_acc = some (-2) ∧
    ((-2 : ℚ) < 0) := by
  have hlev : lev ['a'] ['b', 'b', 'b'] = 3 := by simp [lev]
  refine ⟨compute_all_metrics_cer_eq ext gt hyp h,
    compute_all_metrics_char_acc_eq ext gt hyp h, ?_, by norm_num, ?_, by norm_num⟩
  · unfold compute_all_metrics
    rw [if_neg (by decide)]
    simp [hlev]
  · unfold compute_all_metrics
    rw [if_neg (by decide)]
    simp [hlev]
    norm_num

/-- Witness for C5 at the reference `"ab"` and hypothesis `"b"`. -/
theorem compute_all_metrics_cer_char_acc_witness :
    ¬((['a', 'b'] : Str) = [] ∨ pyStrip ['a', 'b'] = []) ∧
    ((compute_all_metrics extTriv ['a', 'b'] ['b']).cer
        = some ((lev ['a', 'b'] ['b'] : ℚ) / ((['a', 'b'] : Str).length : ℚ)) ∧
      (compute_all_metrics extTriv ['a', 'b'] ['b']).char_acc
        = some (1 - (lev ['a', 'b'] ['b'] : ℚ) / ((['a', 'b'] : Str).length : ℚ)) ∧
      (compute_all_metrics extTriv ['a'] ['b', 'b', 'b']).cer = some 3 ∧
      ((1 : ℚ) < 3) ∧
      (compute_all_metrics extTriv ['a'] ['b', 'b', 'b']).char_acc = some (-2) ∧
      ((-2 : ℚ) < 0)) :=
  ⟨by decide, compute_all_metrics_cer_char_acc extTriv ['a', 'b'] ['b'] (by decide)⟩

/-! ## Claim C6 -/

/-- C6: for every non-degenerate reference and every hypothesis, the word
alignment underlying the metrics satisfies `correct + substitutions +
deletions = number of whitespace-delimited reference tokens`, and the
`substitutions`/`deletions` fields reported by `compute_all_metrics` are
exactly those alignment counts (insertions being counted separately). -/
theorem compute_all_metrics_word_count_invariant (ext : ExtLibs) (gt hyp : Str)
    (h : ¬(gt = [] ∨ pyStrip gt = [])) :
    (compute_all_metrics ext gt hyp).substitutions
        = some (compute_measures gt hyp).substitutions ∧
    (compute_all_metrics ext gt hyp).deletions
        = some (compute_measures gt hyp).deletions ∧
    (compute_measures gt hyp).hits + (compute_measures gt hyp).substitutions
        + (compute_measures gt hyp).deletions = (pySplit gt).length := by
  refine ⟨?_, ?_, ?_⟩
  · unfold compute_all_metrics
    rw [if_neg h]
  · unfold compute_all_metrics
    rw [if_neg h]
  · unfold compute_measures
    exact alignCounts_sum (pySplit gt) (pySplit hyp)

/-- Witness for C6 at the reference `"a b"` and hypothesis `"a"`. -/
theorem compute_all_metrics_word_count_invariant_witness :
    ¬((['a', ' ', 'b'] : Str) = [] ∨ pyStrip ['a', ' ', 'b'] = []) ∧
    ((compute_all_metrics extTriv ['a', ' ', 'b'] ['a']).substitutions
        = some (compute_measures ['a', ' ', 'b'] ['a']).substitutions ∧
      (compute_all_metrics extTriv ['a', ' ', 'b'] ['a']).deletions
        = some (compute_measures ['a', ' ', 'b'] ['a']).deletions ∧
      (compute_measures ['a', ' ', 'b'] ['a']).hits
        + (compute_measures ['a', ' ', 'b'] ['a']).substitutions
        + (compute_measures ['a', ' ', 'b'] ['a']).deletions
        = (pySplit ['a', ' ', 'b']).length) :=
  ⟨by decide,
    compute_all_metrics_word_count_invariant extTriv ['a', ' ', 'b'] ['a'] (by decide)⟩

/-! ## Claim C8 -/

/-- C8: for `ref = "hello world"` and `hyp = ""` the metrics computation
returns `levenshtein_dist = 11`, `cer = 1`, `wer = 1`, `insertions = 0` and
`deletions = 2`; and in general the character edit distance of any reference
against the empty hypothesis is the reference length, and symmetrically. -/
theorem compute_all_metrics_empty_hypothesis_scenario :
    (∀ ext : ExtLibs,
      (compute_all_metrics ext "hello world".toList []).levenshtein_dist = some 11 ∧
      (compute_all_metrics ext "hello world".toList []).cer = some 1 ∧
      (compute_all_metrics ext "hello world".toList []).wer = some 1 ∧
      (compute_all_metrics ext "hello world".toList []).insertions = some 0 ∧
      (compute_all_metrics ext "hello world".toList []).deletions = some 2) ∧
    (∀ ref : Str, lev ref [] = ref.length) ∧
    (∀ hyp : Str, lev [] hyp = hyp.length) := by
  have h1 : ∀ ref : Str, lev ref [] = ref.length := fun ref => by
    cases ref <;> simp [lev]
  have h2 : ∀ hyp : Str, lev [] hyp = hyp.length := fun hyp => by simp [lev]
  have hsplit : pySplit ['h', 'e', 'l', 'l', 'o', ' ', 'w', 'o', 'r', 'l', 'd']
      = [['h', 'e', 'l', 'l', 'o'], ['w', 'o', 'r', 'l', 'd']] := by
    simp [pySplit, List.takeWhile, List.dropWhile, isPyWS]
  have hac : alignCounts [['h', 'e', 'l', 'l', 'o'], ['w', 'o', 'r', 'l', 'd']] []
      = ⟨0, 0, 2, 0⟩ := by
    simp [alignCounts]
  have hlev : lev ['h', 'e', 'l', 'l', 'o', ' ', 'w', 'o', 'r', 'l', 'd'] [] = 11 := by
    rw [h1]; rfl
  refine ⟨fun ext => ?_, h1, h2⟩
  have hm : compute_measures ['h', 'e', 'l', 'l', 'o', ' ', 'w', 'o', 'r', 'l', 'd'] [] =
      { wer := 1, hits := 0, substitutions := 0, deletions := 2, insertions := 0 } := by
    unfold compute_measures
    rw [hsplit]
    simp [pySplit, hac]
  unfold compute_all_metrics
  rw [if_neg (by decide)]
  exact ⟨by simp [hlev], by norm_num [hlev], by simp [hm], by simp [hm], by simp [hm]⟩

/-! ## Claim C9 -/

/-- C9: on the computing branch (non-degenerate reference) no division by
zero occurs: the reference length is positive (so the `else 1.0` arm of the
`cer` guard is unreachable and `cer` is the actual quotient), and the word
error rate denominator `hits + substitutions + deletions` — which equals the
reference token count — is positive as well. -/
theorem compute_all_metrics_divisors_positive (ext : ExtLibs) (gt hyp : Str)
    (h : ¬(gt = [] ∨ pyStrip gt = [])) :
    0 < gt.length ∧
    1 ≤ (pySplit gt).length ∧
    (compute_all_metrics ext gt hyp).cer
        = some ((lev gt hyp : ℚ) / (gt.length : ℚ)) ∧
    0 < (alignCounts (pySplit gt) (pySplit hyp)).hits
        + (alignCounts (pySplit gt) (pySplit hyp)).subs
        + (alignCounts (pySplit gt) (pySplit hyp)).dels := by
  have hlen : 0 < gt.length := List.length_pos.mpr fun he => h (Or.inl he)
  have hsl : 1 ≤ (pySplit gt).length := List.length_pos.mpr (nondeg_pySplit_ne_nil gt h)
  refine ⟨hlen, hsl, compute_all_metrics_cer_eq ext gt hyp h, ?_⟩
  rw [alignCounts_sum (pySplit gt) (pySplit hyp)]
  exact hsl

/-- Witness for C9 at the reference `"a b"` and hypothesis `""`. -/
theorem compute_all_metrics_divisors_positive_witness :
    ¬((['a', ' ', 'b'] : Str) = [] ∨ pyStrip ['a', ' ', 'b'] = []) ∧
    (0 < (['a', ' ', 'b'] : Str).length ∧
      1 ≤ (pySplit ['a', ' ', 'b']).length ∧
      (compute_all_metrics extTriv ['a', ' ', 'b'] []).cer
        = some ((lev ['a', ' ', 'b'] [] : ℚ) / (((['a', ' ', 'b'] : Str)).length : ℚ)) ∧
      0 < (alignCounts (pySplit ['a', ' ', 'b']) (pySplit [])).hits
        + (alignCounts (pySplit ['a', ' ', 'b']) (pySplit [])).subs
        + (alignCounts (pySplit ['a', ' ', 'b']) (pySplit [])).dels) :=
  ⟨by decide, compute_all_metrics_divisors_positive extTriv ['a', ' ', 'b'] [] (by decide)⟩

/-! ## Orchestrator lemmas -/

theorem processRows_eq_flatMap (gtMap : Nat → Str) (runners : List Engine)
    (pages : List Str) :
    processRows gtMap runners pages = runners.flatMap fun r =>
      (pages.enum).map fun p => scoreRow gtMap r.name (p.1 + 1) (runText r p.2) := by
  unfold processRows
  cases runners <;> simp

theorem processRows_length (gtMap : Nat → Str) (runners : List Engine)
    (pages : List Str) :
    (processRows gtMap runners pages).length = runners.length * pages.length := by
  rw [processRows_eq_flatMap]
  induction runners with
  | nil => simp
  | cons r rs ih =>
    simp only [List.flatMap_cons, List.length_append, List.length_map,
      List.enum_length, ih, List.length_cons]
    ring

theorem processRows_model_page (gtMap : Nat → Str) (runners : List Engine)
    (pages : List Str) :
    (processRows gtMap runners pages).map (fun row => (row.model, row.page)) =
      runners.flatMap fun r => (List.range pages.length).map fun i => (r.name, i + 1) := by
  rw [processRows_eq_flatMap, List.map_flatMap]
  have hinner : ∀ r : Engine,
      (((pages.enum).map fun p => scoreRow gtMap r.name (p.1 + 1) (runText r p.2)).map
          fun row => (row.model, row.page))
        = (List.range pages.length).map fun i => (r.name, i + 1) := by
    intro r
    rw [List.map_map]
    have hc : ((fun row : Row => (row.model, row.page)) ∘
        fun p : Nat × Str => scoreRow gtMap r.name (p.1 + 1) (runText r p.2))
        = (fun i : Nat => (r.name, i + 1)) ∘ Prod.fst := by
      funext p
      simp [scoreRow, Function.comp]
    rw [hc, ← List.map_map, List.enum_map_fst]
  simp only [hinner]

theorem flatMap_getElem? {α β : Type _} (f : α → List β) (P : Nat)
    (hf : ∀ x, (f x).length = P) (l : List α) :
    ∀ (j i : Nat) (x : α), i < P → l[j]? = some x →
      (l.flatMap f)[j * P + i]? = (f x)[i]? := by
  induction l with
  | nil =>
    intro j i x hi hx
    simp at hx
  | cons y ys ih =>
    intro j i x hi hx
    cases j with
    | zero =>
      simp only [List.getElem?_cons_zero, Option.some.injEq] at hx
      subst hx
      rw [List.flatMap_cons, Nat.zero_mul, Nat.zero_add]
      exact List.getElem?_append_left (by rw [hf y]; exact hi)
    | succ j =>
      simp only [List.getElem?_cons_succ] at hx
      rw [List.flatMap_cons]
      have h2 : (j + 1) * P + i = P + (j * P + i) := by ring
      rw [h2, List.getElem?_append_right (by rw [hf y]; omega), hf y,
        Nat.add_sub_cancel_left]
      exact ih j i x hi hx

theorem processRows_getElem? (gtMap : Nat → Str) (runners : List Engine)
    (pages : List Str) (j i : Nat) (hj : j < runners.length) (hi : i < pages.length) :
    (processRows gtMap runners pages)[j * pages.length + i]?
      = some (scoreRow gtMap (runners[j]).name (i + 1) (runText (runners[j]) (pages[i]))) := by
  rw [processRows_eq_flatMap]
  have hf : ∀ r : Engine,
      ((pages.enum).map fun p => scoreRow gtMap r.name (p.1 + 1) (runText r p.2)).length
        = pages.length := by
    intro r
    simp [List.enum_length]
  rw [flatMap_getElem? _ pages.length hf runners j i (runners[j]) hi
    (List.getElem?_eq_getElem hj)]
  rw [List.getElem?_map]
  have he : (pages.enum)[i]? = some (i, pages[i]) := by
    rw [List.getElem?_enum, List.getElem?_eq_getElem hi]
    rfl
  rw [he]
  rfl

/-! ## Claim C2 -/

/-- C2: for every run over a list of successfully constructed engines and a
list of pages, the report has exactly `engines × pages` rows, grouped by
engine in registration order and within each engine by page ascending from 1,
whatever the engines' `run_image` operations do (including always raising). -/
theorem processRows_row_count_and_order (gtMap : Nat → Str) (runners : List Engine)
    (pages : List Str) :
    (processRows gtMap runners pages).length = runners.length * pages.length ∧
    (processRows gtMap runners pages).map (fun row => (row.model, row.page)) =
      runners.flatMap fun r => (List.range pages.length).map fun i => (r.name, i + 1) :=
  ⟨processRows_length gtMap runners pages, processRows_model_page gtMap runners pages⟩

/-! ## Claim C3 -/

/-- C3: if an engine's `run_image` raises on some page, no exception escapes
the page loop: the row for that (engine, page) pair is still produced at its
position, its hypothesis is the failure-marker string and it is scored by the
same `scoreRow` as any other hypothesis text; and every row of the report is
a function of its own engine's output on its own page only, so rows of other
pages and engines are unaffected. -/
theorem processRows_failure_isolated (gtMap : Nat → Str) (runners : List Engine)
    (pages : List Str) (j i : Nat) (e : Str)
    (hj : j < runners.length) (hi : i < pages.length)
    (he : (runners[j]).run_image (pages[i]) = Except.error e) :
    (processRows gtMap runners pages)[j * pages.length + i]?
        = some (scoreRow gtMap (runners[j]).name (i + 1) (markerText e)) ∧
    ∀ (j' i' : Nat) (hj' : j' < runners.length) (hi' : i' < pages.length),
      (processRows gtMap runners pages)[j' * pages.length + i']?
        = some (scoreRow gtMap (runners.get ⟨j', hj'⟩).name (i' + 1)
            (runText (runners.get ⟨j', hj'⟩) (pages.get ⟨i', hi'⟩))) := by
  constructor
  · rw [processRows_getElem? gtMap runners pages j i hj hi]
    unfold runText
    rw [he]
  · intro j' i' hj' hi'
    exact processRows_getElem? gtMap runners pages j' i' hj' hi'

/-- Witness for C3: one engine whose `run_image` always raises, one page. -/
theorem processRows_failure_isolated_witness :
    (0 : Nat) < 1 ∧
    (processRows (fun _ => []) [⟨['e'], fun _ => Except.error ['x']⟩] [['p']])[0 * 1 + 0]?
      = some (scoreRow (fun _ => [])
          (([⟨['e'], fun _ => Except.error ['x']⟩] : List Engine)[0]).name (0 + 1)
          (markerText ['x'])) :=
  ⟨by decide,
    (processRows_failure_isolated (fun _ => []) [⟨['e'], fun _ => Except.error ['x']⟩]
      [['p']] 0 0 ['x'] (by decide) (by decide) rfl).1⟩

/-! ## Claim C4 (corrected) -/

/-- Counterexample to C4: on a concrete one-engine one-page run, the report
row's column set does not contain `word_acc` (nor `levenshtein_dist`,
`fuzz_ratio`, `bleu`, `rougeL_f1`), although the claimed column set does. -/
theorem summary_columns_counterexample :
    "word_acc" ∈ specClaimedColumns ∧
    "word_acc" ∉ summaryFields
      (processRows (fun _ => ['a']) [⟨['e'], fun _ => Except.ok ['a']⟩] [['p']]) := by
  constructor
  · decide
  · rw [processRows_eq_flatMap]
    simp [summaryFields, Row.toPairs, List.enum, List.enumFrom]

/-- C4 as amended: every row of the benchmark report has the stable column
set `model, page, gt_len_chars, hyp_len_chars, cer, wer, char_acc,
substitutions, deletions, insertions` (the MetricsVector fields `word_acc`,
`levenshtein_dist`, `fuzz_ratio`, `bleu` and `rougeL_f1` are absent), with
one row per engine × page pair. -/
theorem summary_columns_amended (gtMap : Nat → Str) (runners : List Engine)
    (pages : List Str) (hr : runners ≠ []) (hp : pages ≠ []) :
    summaryFields (processRows gtMap runners pages)
      = ["model", "page", "gt_len_chars", "hyp_len_chars", "cer", "wer", "char_acc",
         "substitutions", "deletions", "insertions"] ∧
    (∀ row ∈ processRows gtMap runners pages,
      row.toPairs.map Prod.fst
        = ["model", "page", "gt_len_chars", "hyp_len_chars", "cer", "wer", "char_acc",
           "substitutions", "deletions", "insertions"]) ∧
    (processRows gtMap runners pages).length = runners.length * pages.length := by
  have hkeys : ∀ r : Row, r.toPairs.map Prod.fst
      = ["model", "page", "gt_len_chars", "hyp_len_chars", "cer", "wer", "char_acc",
         "substitutions", "deletions", "insertions"] := fun r => rfl
  refine ⟨?_, fun row _ => hkeys row, processRows_length gtMap runners pages⟩
  have hpos : 0 < (processRows gtMap runners pages).length := by
    rw [processRows_length gtMap runners pages]
    exact Nat.mul_pos (List.length_pos.mpr hr) (List.length_pos.mpr hp)
  cases hrows : processRows gtMap runners pages with
  | nil => rw [hrows] at hpos; simp at hpos
  | cons r rest => simpa [summaryFields] using hkeys r

/-- Witness for the amended C4 at a concrete one-engine one-page run. -/
theorem summary_columns_amended_witness :
    ([⟨['e'], fun _ => Except.ok ['a']⟩] : List Engine) ≠ [] ∧ ([['p']] : List Str) ≠ [] ∧
    (summaryFields (processRows (fun _ => ['a']) [⟨['e'], fun _ => Except.ok ['a']⟩] [['p']])
        = ["model", "page", "gt_len_chars", "hyp_len_chars", "cer", "wer", "char_acc",
           "substitutions", "deletions", "insertions"] ∧
      (processRows (fun _ => ['a']) [⟨['e'], fun _ => Except.ok ['a']⟩] [['p']]).length
        = 1 * 1) :=
  ⟨by simp, by simp,
    (summary_columns_amended (fun _ => ['a']) [⟨['e'], fun _ => Except.ok ['a']⟩] [['p']]
      (by simp) (by simp)).1,
    (summary_columns_amended (fun _ => ['a']) [⟨['e'], fun _ => Except.ok ['a']⟩] [['p']]
      (by simp) (by simp)).2.2⟩

/-! ## Claim C7 (corrected) -/

/-- Counterexample to C7: two active engines share the display name `"x"`,
yet the run is not halted — both engines' pages are processed and report rows
are produced for each. -/
theorem duplicate_names_counterexample :
    dupEngineA.name = dupEngineB.name ∧
    (processRows (fun _ => []) [dupEngineA, dupEngineB] [['p']]).length = 2 ∧
    (processRows (fun _ => []) [dupEngineA, dupEngineB] [['p']]).map Row.model
      = [['x'], ['x']] := by
  refine ⟨rfl, ?_, ?_⟩
  · rw [processRows_length]
    rfl
  · rw [processRows_eq_flatMap]
    simp [scoreRow, runText, dupEngineA, dupEngineB, List.enum, List.enumFrom]

/-- C7 as amended: duplicate display names among active engines are not
detected — the orchestrator has no uniqueness check, so even when two active
engines share a display name the run proceeds and produces one row per
engine × page pair (the only pre-page halt is an empty active-engine set). -/
theorem duplicate_names_amended (gtMap : Nat → Str) (runners : List Engine)
    (pages : List Str) (j k : Nat) (hj : j < runners.length) (hk : k < runners.length)
    (hjk : j ≠ k) (hdup : (runners[j]).name = (runners[k]).name) :
    (processRows gtMap runners pages).length = runners.length * pages.length ∧
    (processRows gtMap runners pages).map (fun row => (row.model, row.page)) =
      runners.flatMap fun r => (List.range pages.length).map fun i => (r.name, i + 1) :=
  ⟨processRows_length gtMap runners pages, processRows_model_page gtMap runners pages⟩

/-- Witness for the amended C7 at the two same-named engines over one page. -/
theorem duplicate_names_amended_witness :
    (0 : Nat) ≠ 1 ∧
    (processRows (fun _ => []) [dupEngineA, dupEngineB] [['p']]).length = 2 * 1 :=
  ⟨by decide,
    (duplicate_names_amended (fun _ => []) [dupEngineA, dupEngineB] [['p']] 0 1
      (by decide) (by decide) (by decide) rfl).1⟩

/-! ## Ground-truth reader lemmas -/

theorem updateAssoc_mem_keys (l : List (Int × Str)) (k : Int) (v : Str) (j : Int) :
    j ∈ (updateAssoc l k v).map Prod.fst ↔ j = k ∨ j ∈ l.map Prod.fst := by
  induction l with
  | nil => simp [updateAssoc]
  | cons p rest ih =>
    obtain ⟨k', v'⟩ := p
    by_cases h : k' = k
    · subst h
      simp [updateAssoc]
    · simp [updateAssoc, h, ih]
      tauto

theorem updateAssoc_mem_pairs (l : List (Int × Str)) (k : Int) (v : Str) :
    ∀ kv ∈ updateAssoc l k v, kv ∈ l ∨ kv = (k, v) := by
  induction l with
  | nil => simp [updateAssoc]
  | cons p rest ih =>
    obtain ⟨k', v'⟩ := p
    intro kv hkv
    by_cases h : k' = k
    · have hif : updateAssoc ((k', v') :: rest) k v = (k, v) :: rest := by
        simp only [updateAssoc, if_pos h]
      rw [hif] at hkv
      rcases List.mem_cons.mp hkv with h1 | h1
      · exact Or.inr h1
      · exact Or.inl (List.mem_cons_of_mem _ h1)
    · have hif : updateAssoc ((k', v') :: rest) k v = (k', v') :: updateAssoc rest k v := by
        simp only [updateAssoc, if_neg h]
      rw [hif] at hkv
      rcases List.mem_cons.mp hkv with h1 | h1
      · exact Or.inl (h1 ▸ List.mem_cons_self _ _)
      · rcases ih kv h1 with h2 | h2
        · exact Or.inl (List.mem_cons_of_mem _ h2)
        · exact Or.inr h2

theorem updateAssoc_nodupkeys (l : List (Int × Str)) (k : Int) (v : Str)
    (h : (l.map Prod.fst).Nodup) : ((updateAssoc l k v).map Prod.fst).Nodup := by
  induction l with
  | nil => simp [updateAssoc]
  | cons p rest ih =>
    obtain ⟨k', v'⟩ := p
    simp only [List.map_cons, List.nodup_cons] at h
    by_cases hk : k' = k
    · subst hk
      simpa [updateAssoc] using h
    · simp only [updateAssoc, if_neg hk, List.map_cons, List.nodup_cons]
      refine ⟨?_, ih h.2⟩
      intro hmem
      rcases (updateAssoc_mem_keys rest k v k').mp hmem with h1 | h1
      · exact hk h1
      · exact h.1 h1

theorem foldl_gtStep_mem_keys (files : List (Str × Str)) :
    ∀ (acc : List (Int × Str)) (j : Int),
      j ∈ (files.foldl gtStep acc).map Prod.fst ↔
        j ∈ acc.map Prod.fst ∨ ∃ p ∈ files, stemIdx p.1 = some j := by
  induction files with
  | nil =>
    intro acc j
    simp
  | cons f fs ih =>
    intro acc j
    rw [List.foldl_cons, ih (gtStep acc f) j]
    unfold gtStep
    cases hst : stemIdx f.1 with
    | none =>
      simp [hst]
    | some idx =>
      rw [updateAssoc_mem_keys]
      simp [hst]
      tauto

theorem foldl_gtStep_pairs (files : List (Str × Str)) :
    ∀ (acc : List (Int × Str)) (kv : Int × Str), kv ∈ files.foldl gtStep acc →
      kv ∈ acc ∨ ∃ p ∈ files, stemIdx p.1 = some kv.1 ∧ kv.2 = pyStrip p.2 := by
  induction files with
  | nil =>
    intro acc kv h
    exact Or.inl (by simpa using h)
  | cons f fs ih =>
    intro acc kv h
    rw [List.foldl_cons] at h
    rcases ih (gtStep acc f) kv h with h1 | h1
    · unfold gtStep at h1
      cases hst : stemIdx f.1 with
      | none =>
        rw [hst] at h1
        exact Or.inl h1
      | some idx =>
        rw [hst] at h1
        rcases updateAssoc_mem_pairs acc idx (pyStrip f.2) kv h1 with h2 | h2
        · exact Or.inl h2
        · refine Or.inr ⟨f, List.mem_cons_self _ _, ?_, ?_⟩
          · rw [hst, h2]
          · rw [h2]
    · rcases h1 with ⟨p, hp, hidx⟩
      exact Or.inr ⟨p, List.mem_cons_of_mem _ hp, hidx⟩

theorem foldl_gtStep_nodupkeys (files : List (Str × Str)) :
    ∀ acc : List (Int × Str), (acc.map Prod.fst).Nodup →
      ((files.foldl gtStep acc).map Prod.fst).Nodup := by
  induction files with
  | nil =>
    intro acc h
    simpa using h
  | cons f fs ih =>
    intro acc h
    rw [List.foldl_cons]
    refine ih (gtStep acc f) ?_
    unfold gtStep
    cases stemIdx f.1 with
    | none => exact h
    | some idx => exact updateAssoc_nodupkeys acc idx (pyStrip f.2) h

/-! ## Claim C10 -/

/-- C10: the directory reader returns exactly the files whose stem's trailing
underscore token (or, failing that, the whole stem) parses as an integer,
keyed by that integer with the file's stripped text as value; unparseable
files are silently skipped (the function is total and simply omits them), and
the resulting mapping's keys are strictly ascending. -/
theorem read_gemini_ground_truth_dir_spec (files : List (Str × Str)) :
    (∀ j : Int, j ∈ (read_gemini_ground_truth_dir files).map Prod.fst ↔
      ∃ p ∈ files, stemIdx p.1 = some j) ∧
    (∀ kv ∈ read_gemini_ground_truth_dir files,
      ∃ p ∈ files, stemIdx p.1 = some kv.1 ∧ kv.2 = pyStrip p.2) ∧
    List.Pairwise (fun a b : Int => a < b)
      ((read_gemini_ground_truth_dir files).map Prod.fst) := by
  have hperm : (read_gemini_ground_truth_dir files).Perm (files.foldl gtStep []) :=
    List.mergeSort_perm (files.foldl gtStep []) _
  refine ⟨?_, ?_, ?_⟩
  · intro j
    rw [(hperm.map Prod.fst).mem_iff, foldl_gtStep_mem_keys files [] j]
    simp
  · intro kv hkv
    have := foldl_gtStep_pairs files [] kv (hperm.mem_iff.mp hkv)
    simpa using this
  · have hnd : ((read_gemini_ground_truth_dir files).map Prod.fst).Nodup :=
      ((hperm.map Prod.fst).nodup_iff).mpr
        (foldl_gtStep_nodupkeys files [] (by simp))
    have hsorted : List.Pairwise
        (fun a b : Int × Str => (fun a b : Int × Str => decide (a.1 ≤ b.1)) a b = true)
        (read_gemini_ground_truth_dir files) := by
      unfold read_gemini_ground_truth_dir
      exact List.sorted_mergeSort
        (fun a b c hab hbc => by
          simp only [decide_eq_true_eq] at hab hbc ⊢
          exact le_trans hab hbc)
        (fun a b => by
          simp only [Bool.or_eq_true, decide_eq_true_eq]
          exact le_total a.1 b.1)
        (files.foldl gtStep [])
    have hle : List.Pairwise (fun a b : Int => a ≤ b)
        ((read_gemini_ground_truth_dir files).map Prod.fst) := by
      refine List.Pairwise.map Prod.fst ?_ hsorted
      intro a b hab
      simpa using hab
    exact List.Sorted.lt_of_le hle hnd

end OcrAdda
